import Mathlib

/-!
Verification development for the katzenpost `stream` package
(`stream/stream.go`): a reliable stream protocol carried over a
key-addressable message store.  The Go code is shallowly embedded:
frames, the CBOR wire encoding (lengths and bytes of the default
`fxamacker/cbor` encoding of the `Frame` struct), the key/identifier
schedule, the acknowledgement-processing loop, the stream state
machine driven by the reader worker, the writer worker, the
retransmission timer queue, and the public `Read`/`Write` calls.
Machine integers (`uint64`) are modelled as `Nat`; the subtraction
`f_read_idx - f_ack_idx` that the Go code performs on `uint64` is
modelled by truncated `Nat` subtraction, which agrees with the Go
value on all states satisfying the counter invariant
`f_ack_idx ≤ f_read_idx` proved below.
-/

namespace KatzenStream

/-! ## Constants from stream.go -/

def keySize : ℕ := 32

def nonceSize : ℕ := 24

/-- `secretbox.Overhead` of golang.org/x/crypto/nacl/secretbox. -/
def secretboxOverhead : ℕ := 16

/-! ## Frame type and frames (stream.go `FrameType`, `Frame`) -/

inductive FrameType where
  | StreamStart
  | StreamData
  | StreamEnd
deriving DecidableEq, Repr

/-- The numeric value of the `FrameType` enumeration (Go `iota`). -/
def FrameType.toNat : FrameType → ℕ
  | .StreamStart => 0
  | .StreamData => 1
  | .StreamEnd => 2

/-- Go `Frame`.  `id` is unexported and never serialized.  `Payload`
bytes are modelled as naturals below 256. -/
structure Frame where
  ftype : FrameType
  id : ℕ
  Ack : ℕ
  Payload : List ℕ
deriving DecidableEq, Repr

/-! ## CBOR encoding of a Frame (fxamacker/cbor default options)

`cbor.Marshal` with default options encodes a struct as a CBOR map
from field-name text strings to field values, in declaration order,
using shortest-form (preferred) integer heads; a `nil` byte slice
encodes as CBOR `null` (0xf6), a non-nil byte slice as a byte string.
Only the exported fields `Type`, `Ack`, `Payload` are encoded. -/

/-- CBOR head for major type `major` and argument `n` (shortest form). -/
def cborHead (major n : ℕ) : List ℕ :=
  if n < 24 then [32 * major + n]
  else if n < 2 ^ 8 then [32 * major + 24, n]
  else if n < 2 ^ 16 then [32 * major + 25, n / 2 ^ 8, n % 2 ^ 8]
  else if n < 2 ^ 32 then
    [32 * major + 26, n / 2 ^ 24 % 2 ^ 8, n / 2 ^ 16 % 2 ^ 8, n / 2 ^ 8 % 2 ^ 8, n % 2 ^ 8]
  else
    [32 * major + 27, n / 2 ^ 56 % 2 ^ 8, n / 2 ^ 48 % 2 ^ 8, n / 2 ^ 40 % 2 ^ 8,
      n / 2 ^ 32 % 2 ^ 8, n / 2 ^ 24 % 2 ^ 8, n / 2 ^ 16 % 2 ^ 8, n / 2 ^ 8 % 2 ^ 8, n % 2 ^ 8]

/-- CBOR unsigned integer (major type 0). -/
def cborUInt (n : ℕ) : List ℕ := cborHead 0 n

/-- CBOR byte string (major type 2). -/
def cborByteString (b : List ℕ) : List ℕ := cborHead 2 b.length ++ b

/-- CBOR text string key "Type". -/
def typeKeyBytes : List ℕ := [100, 84, 121, 112, 101]

/-- CBOR text string key "Ack". -/
def ackKeyBytes : List ℕ := [99, 65, 99, 107]

/-- CBOR text string key "Payload". -/
def payloadKeyBytes : List ℕ := [103, 80, 97, 121, 108, 111, 97, 100]

/-- `cbor.Marshal` of a `Frame` value.  `nilPayload` is true when the Go
`Payload` slice is `nil` (as in the zero value `Frame{}` used by `init`),
in which case it encodes as CBOR `null`; a non-nil slice (as produced by
`writer`, `f.Payload = f.Payload[:n]`) encodes as a byte string. -/
def cborMarshalFrame (f : Frame) (nilPayload : Bool) : List ℕ :=
  [163] ++ typeKeyBytes ++ cborUInt f.ftype.toNat
    ++ ackKeyBytes ++ cborUInt f.Ack
    ++ payloadKeyBytes ++ (if nilPayload then [246] else cborByteString f.Payload)

/-- `cborFrameOverhead` computed by `init()`: the length of
`cbor.Marshal(Frame{})`. -/
def cborFrameOverhead : ℕ := (cborMarshalFrame ⟨.StreamStart, 0, 0, []⟩ true).length

/-- `FramePayloadSize` computed by `init()` from the substrate payload
size `P` (`mClient.PayloadSize`), as a Go `int`. -/
def framePayloadSize (P : ℕ) : ℤ :=
  (P : ℤ) - nonceSize - cborFrameOverhead - secretboxOverhead

/-- Length of the byte sequence `txFrame` passes to the substrate `Put`
for frame `f` when the substrate payload size is `P`: the serialized
frame is zero-padded up to `FramePayloadSize` if shorter, sealed with
`secretbox` (adding `secretboxOverhead`), and prefixed by the 24-byte
nonce. -/
def txPutLen (P : ℕ) (f : Frame) : ℤ :=
  let serialized : ℤ := ((cborMarshalFrame f false).length : ℤ)
  let padded : ℤ :=
    if 0 < framePayloadSize P - serialized then framePayloadSize P else serialized
  (nonceSize : ℤ) + (padded + secretboxOverhead)

/-! ## Key and identifier schedule (stream.go `exchange`, `txFrameID`,
`txFrameKey`, `rxFrameID`, `rxFrameKey`)

SHA-256 is modelled as an abstract function `H` on byte lists, and the
HKDF output stream as an abstract function `hkdfStream salt ikm i`
giving the `i`-th byte of `hkdf.New(sha256.New, ikm, salt, nil)`. -/

/-- `binary.BigEndian.PutUint64`: the 8 big-endian bytes of a `uint64`. -/
def be64 (n : ℕ) : List ℕ :=
  [n / 2 ^ 56 % 2 ^ 8, n / 2 ^ 48 % 2 ^ 8, n / 2 ^ 40 % 2 ^ 8, n / 2 ^ 32 % 2 ^ 8,
    n / 2 ^ 24 % 2 ^ 8, n / 2 ^ 16 % 2 ^ 8, n / 2 ^ 8 % 2 ^ 8, n % 2 ^ 8]

/-- stream.go `txFrameID`: `H(write_id_base ‖ be64(frame_num))`. -/
def txFrameID (H : List ℕ → List ℕ) (write_id_base : List ℕ) (frame_num : ℕ) : List ℕ :=
  H (write_id_base ++ be64 frame_num)

/-- stream.go `txFrameKey`: `H(writekey ‖ be64(frame_num))`. -/
def txFrameKey (H : List ℕ → List ℕ) (writekey : List ℕ) (frame_num : ℕ) : List ℕ :=
  H (writekey ++ be64 frame_num)

/-- stream.go `rxFrameID`: `H(read_id_base ‖ be64(frame_num))`. -/
def rxFrameID (H : List ℕ → List ℕ) (read_id_base : List ℕ) (frame_num : ℕ) : List ℕ :=
  H (read_id_base ++ be64 frame_num)

/-- stream.go `rxFrameKey`: `H(readkey ‖ be64(frame_num))`. -/
def rxFrameKey (H : List ℕ → List ℕ) (readkey : List ℕ) (frame_num : ℕ) : List ℕ :=
  H (readkey ++ be64 frame_num)

/-- The ASCII bytes of the HKDF salt "stream_reader_writer_keymaterial". -/
def hkdfSaltBytes : List ℕ :=
  [115, 116, 114, 101, 97, 109, 95, 114, 101, 97, 100, 101, 114, 95, 119, 114,
    105, 116, 101, 114, 95, 107, 101, 121, 109, 97, 116, 101, 114, 105, 97, 108]

/-- The four 32-byte secrets `exchange` derives from the handshake. -/
structure KeyMaterial where
  writekey : List ℕ
  write_id_base : List ℕ
  readkey : List ℕ
  read_id_base : List ℕ

/-- stream.go `exchange`: the writer key material is read from the HKDF
stream of `mysecret` (first `keySize` bytes the key, next `keySize` bytes
the id base), the reader key material from the HKDF stream of
`othersecret`. -/
def exchange (hkdfStream : List ℕ → List ℕ → ℕ → ℕ) (mysecret othersecret : List ℕ) :
    KeyMaterial where
  writekey := (List.range keySize).map (hkdfStream hkdfSaltBytes mysecret)
  write_id_base := (List.range keySize).map (fun i => hkdfStream hkdfSaltBytes mysecret (keySize + i))
  readkey := (List.range keySize).map (hkdfStream hkdfSaltBytes othersecret)
  read_id_base := (List.range keySize).map (fun i => hkdfStream hkdfSaltBytes othersecret (keySize + i))

/-- id_tx of the specification: `id_tx(n) = H(write_id_base ‖ be64(n))`. -/
def spec_id_tx (H : List ℕ → List ℕ) (base : List ℕ) (n : ℕ) : List ℕ :=
  H (base ++ be64 n)

/-- k_tx of the specification: `k_tx(n) = H(writekey ‖ be64(n))`. -/
def spec_k_tx (H : List ℕ → List ℕ) (key : List ℕ) (n : ℕ) : List ℕ :=
  H (key ++ be64 n)

/-- Big-endian byte-list reconstruction. -/
def beVal (l : List ℕ) : ℕ := l.foldl (fun a b => 2 ^ 8 * a + b) 0

/-! ## processAck (stream.go `processAck`)

The Go loop iterates over the keys of the `wack` map, deleting every
key `i ≤ f.Ack` and recording in `ackD` whether anything was deleted.
The outstanding set is modelled as a (duplicate-free) key list. -/

/-- The body of `processAck`: returns the remaining outstanding set and
the `ackD` flag. -/
def processAckLoop (ack : ℕ) : List ℕ → List ℕ × Bool
  | [] => ([], false)
  | i :: w =>
    let r := processAckLoop ack w
    if i ≤ ack then (r.1, true) else (i :: r.1, r.2)

/-! ## Stream state machine (stream.go `Stream`, `reader`, `writer`,
`txFrame`, `txEnqueue`, `retx.Push`, `Write`, `Read`, `Close`)

One endpoint of the protocol.  `put` is the append-only log of frames
passed to the substrate `Put`; `tq` is the multiset of frames whose
retransmission timers are pending; `wack` is the outstanding set
(`retx.wack` map keys); `writerWaiting` is true while the writer worker
is blocked in its `select` on `onFlush`/`onAck`. -/

inductive StreamMode where
  | ReliableStream
  | ScrambleStream
deriving DecidableEq, Repr

inductive StreamState where
  | StreamOpen
  | StreamClosing
  | StreamClosed
deriving DecidableEq, Repr

structure Stream where
  fps : ℕ
  stream_window_size : ℕ
  max_writebuf_size : ℕ
  Mode : StreamMode
  RState : StreamState
  WState : StreamState
  writeBuf : List ℕ
  readBuf : List ℕ
  f_read_idx : ℕ
  f_write_idx : ℕ
  f_ack_idx : ℕ
  wack : List ℕ
  tq : List Frame
  put : List Frame
  writerWaiting : Bool
  readDeadline : ℕ
  writeDeadline : ℕ
deriving DecidableEq, Repr

/-- stream.go `txFrame` (state effects): update `f_ack_idx` if the
frame carries a later ack, publish the frame, advance `f_write_idx`,
and in reliable mode add the frame id to the outstanding set and its
retransmission entry to the timer queue (`txEnqueue`). -/
def txFrame (s : Stream) (f : Frame) : Stream :=
  let s2 := { s with
    f_ack_idx := if s.f_ack_idx < f.Ack then f.Ack else s.f_ack_idx,
    put := s.put ++ [f],
    f_write_idx := s.f_write_idx + 1 }
  if s.Mode = .ReliableStream then
    { s2 with wack := s2.wack.insert f.id, tq := s2.tq ++ [f] }
  else s2

/-- Writer's ack obligation: `f_read_idx - f_ack_idx ≥ W`, or (when a
half is closing) any unacknowledged reads at all. -/
def mustAckOf (s : Stream) : Bool :=
  decide (s.Mode = .ReliableStream) &&
    (decide (s.stream_window_size ≤ s.f_read_idx - s.f_ack_idx) ||
      ((decide (s.RState = .StreamClosed) || decide (s.WState = .StreamClosing)) &&
        decide (0 < s.f_read_idx - s.f_ack_idx)))

/-- Writer's teardown obligation: a half is closing and the outbound
buffer is empty. -/
def mustTeardownOf (s : Stream) : Bool :=
  decide (s.Mode = .ReliableStream) &&
    (decide (s.RState = .StreamClosed) || decide (s.WState = .StreamClosing)) &&
    s.writeBuf.isEmpty

/-- Writer's wait condition (computed only when there is no ack and no
teardown obligation): the outstanding set is full or there is nothing
to send, unless the write half is closing. -/
def mustWaitOf (s : Stream) : Bool :=
  (decide (s.stream_window_size ≤ s.wack.length) || s.writeBuf.isEmpty) &&
    !decide (s.WState = .StreamClosing)

/-- The frame the writer assembles: id `f_write_idx`, ack `f_read_idx`,
type `StreamEnd` on teardown (otherwise the zero value `StreamStart`),
payload the next `FramePayloadSize` bytes of the outbound buffer. -/
def builtFrame (s : Stream) (mustTeardown : Bool) : Frame :=
  ⟨if mustTeardown then .StreamEnd else .StreamStart,
    s.f_write_idx, s.f_read_idx, s.writeBuf.take s.fps⟩

/-- The writer's state after the teardown check and the buffer drain,
before a possible publish: on teardown `WState = Closed`, and up to
`FramePayloadSize` bytes have been consumed from the outbound buffer. -/
def drained (s : Stream) (mustTeardown : Bool) : Stream :=
  { s with
    WState := if mustTeardown then .StreamClosed else s.WState,
    writeBuf := s.writeBuf.drop s.fps }

/-- The tail of a writer iteration: on teardown set `WState = Closed`
and mark the frame final, drain up to `FramePayloadSize` bytes from the
outbound buffer, and publish the frame when it carries data or either
obligation holds. -/
def assemblePublish (s : Stream) (mustAck mustTeardown : Bool) : Stream :=
  if !(builtFrame s mustTeardown).Payload.isEmpty || mustAck || mustTeardown then
    txFrame (drained s mustTeardown) (builtFrame s mustTeardown)
  else drained s mustTeardown

/-- One iteration of the writer worker that is not a resumption from a
blocked wait.  `none` when the writer is blocked or has exited
(`WState = Closed` makes it signal `onStreamClose` and return). -/
def writerIter (s : Stream) : Option Stream :=
  if s.writerWaiting then none
  else if s.WState = .StreamClosed then none
  else if decide (s.Mode = .ReliableStream) && !mustAckOf s && !mustTeardownOf s
      && mustWaitOf s then
    some { s with writerWaiting := true }
  else
    some (assemblePublish s (mustAckOf s) (mustTeardownOf s))

/-- The writer worker resuming after its blocked `select` received
`onFlush` or `onAck`: both obligations were computed false before the
wait, and the frame is assembled from the current state. -/
def writerResume (s : Stream) : Option Stream :=
  if s.writerWaiting then
    some (assemblePublish { s with writerWaiting := false } false false)
  else none

/-- The reader worker processing a received frame `f` (after
`readFrame` fetched and opened it): prune the outstanding set by the
frame's ack, append the payload to the inbound buffer, and either close
the read half (`StreamEnd`) or advance `f_read_idx`. -/
def readerIter (s : Stream) (f : Frame) : Stream :=
  let s1 := { s with wack := (processAckLoop f.Ack s.wack).1 }
  let s2 := { s1 with readBuf := s1.readBuf ++ f.Payload }
  if f.ftype = .StreamEnd then { s2 with RState := .StreamClosed }
  else { s2 with f_read_idx := s2.f_read_idx + 1 }

/-- stream.go `retx.Push`: a retransmission timer entry for frame `f`
fires (so `f` leaves the timer queue); if `f.id` is still outstanding,
the frame is re-published through `txFrame`, otherwise nothing happens. -/
def retxPush (s : Stream) (f : Frame) : Option Stream :=
  if f ∈ s.tq then
    let s1 := { s with tq := s.tq.erase f }
    some (if f.id ∈ s1.wack then txFrame s1 f else s1)
  else none

/-- A successful `Write` call appending `p` to the outbound buffer
(failing calls do not change the state). -/
def writeCallStep (s : Stream) (p : List ℕ) : Option Stream :=
  if s.WState = .StreamOpen then some { s with writeBuf := s.writeBuf ++ p } else none

/-- A `Read` call draining `k` bytes from the inbound buffer. -/
def readCallStep (s : Stream) (k : ℕ) : Stream :=
  { s with readBuf := s.readBuf.drop k }

/-- stream.go `Close`: close the read half; if the write half is open,
mark it closing (the writer publishes the final frame). -/
def closeCall (s : Stream) : Stream :=
  if s.WState = .StreamOpen then
    { s with RState := .StreamClosed, WState := .StreamClosing }
  else
    { s with RState := .StreamClosed }

/-- The operations of the stream, as transition labels. -/
inductive Label where
  | writerStep
  | writerWake
  | readerStep (f : Frame)
  | retxStep (f : Frame)
  | writeCall (p : List ℕ)
  | readCall (k : ℕ)
  | closeStep
  | setReadDeadline (t : ℕ)
  | setWriteDeadline (t : ℕ)
deriving DecidableEq, Repr

/-- The transition function of one stream endpoint.  `none` marks an
operation that cannot run (blocked worker, exited worker, spurious
timer entry, write on a closed half). -/
def streamStep (s : Stream) : Label → Option Stream
  | .writerStep => writerIter s
  | .writerWake => writerResume s
  | .readerStep f => some (readerIter s f)
  | .retxStep f => retxPush s f
  | .writeCall p => writeCallStep s p
  | .readCall k => some (readCallStep s k)
  | .closeStep => some (closeCall s)
  | .setReadDeadline t => some { s with readDeadline := t }
  | .setWriteDeadline t => some { s with writeDeadline := t }

/-- stream.go `NewStream`: reliable mode, window size 3, buffer cap
`42 * FramePayloadSize`, both halves open. -/
def newStream (fps : ℕ) : Stream where
  fps := fps
  stream_window_size := 3
  max_writebuf_size := 42 * fps
  Mode := .ReliableStream
  RState := .StreamOpen
  WState := .StreamOpen
  writeBuf := []
  readBuf := []
  f_read_idx := 0
  f_write_idx := 0
  f_ack_idx := 0
  wack := []
  tq := []
  put := []
  writerWaiting := false
  readDeadline := 0
  writeDeadline := 0

/-- Run a sequence of operations. -/
def run (s : Stream) : List Label → Option Stream
  | [] => some s
  | l :: ls =>
    match streamStep s l with
    | some s2 => run s2 ls
    | none => none

/-- States reachable from a freshly constructed stream. -/
inductive Reachable (fps : ℕ) : Stream → Prop where
  | base : Reachable fps (newStream fps)
  | next (s : Stream) (l : Label) (s2 : Stream) :
      Reachable fps s → streamStep s l = some s2 → Reachable fps s2

/-! ## Public `Read` and `Write` calls (stream.go `Read`, `Write`)

A call is modelled as a pure function of the stream state at entry, the
current wall-clock time `now` (`time.Now()` at the deadline check, with
time 0 standing for the zero `time.Time`), and — when the call blocks —
the `select` branch that eventually fires together with the buffer
contents at the moment the call re-acquires the lock. -/

inductive GoErr where
  | noErr
  | eof
  | deadlineExceeded
deriving DecidableEq, Repr

/-- The `select` branches a blocked `Read` can wake on. -/
inductive ReadWake where
  | timeout
  | halted
  | onRead
deriving DecidableEq, Repr

/-- The `select` branches a blocked `Write` can wake on. -/
inductive WriteWake where
  | timeout
  | halted
  | onStreamClose
  | onWrite
deriving DecidableEq, Repr

/-- `bytes.Buffer.Read` into a slice of length `plen`:
`(0, io.EOF)` on an empty buffer, otherwise the copied byte count with
a nil error, consuming the copied bytes. -/
def bufferRead (buf : List ℕ) (plen : ℕ) : ℕ × GoErr × List ℕ :=
  if buf.isEmpty then (0, .eof, buf) else (min plen buf.length, .noErr, buf.drop plen)

/-- The tail of `Read`: read from the inbound buffer, then turn a
short-read `io.EOF` with `n > 0` into a nil error. -/
def readFromBuf (buf : List ℕ) (plen : ℕ) : ℕ × GoErr × List ℕ :=
  let r := bufferRead buf plen
  if r.2.1 = .eof ∧ 0 < r.1 then (r.1, .noErr, r.2.2) else r

/-- stream.go `Read`.  Returns the byte count, the error, and the
inbound buffer left behind.  The deadline check
(`time.Now().After(readDeadline)`) comes first; then the closed-half
checks; an empty buffer blocks until `wake` fires (`time.After` yields
`io.EOF`, halt yields `io.EOF`, `onRead` re-reads the buffer, whose
contents meanwhile are `bufAtWake`). -/
def streamRead (s : Stream) (now plen : ℕ) (wake : ReadWake) (bufAtWake : List ℕ) :
    ℕ × GoErr × List ℕ :=
  if s.readDeadline ≠ 0 ∧ s.readDeadline < now then (0, .deadlineExceeded, s.readBuf)
  else if s.RState = .StreamClosed then (0, .eof, s.readBuf)
  else if s.WState = .StreamClosed ∧ s.Mode = .ReliableStream then (0, .eof, s.readBuf)
  else if s.readBuf.isEmpty then
    match wake with
    | .timeout => (0, .eof, s.readBuf)
    | .halted => (0, .eof, s.readBuf)
    | .onRead => readFromBuf bufAtWake plen
  else readFromBuf s.readBuf plen

/-- stream.go `Write` of `p`.  Returns the byte count, the error, and
the outbound buffer left behind.  A closed or closing write half is
checked first, then the deadline; a buffer at or above
`max_writebuf_size` blocks until `wake` fires (`time.After`, halt and
`onStreamClose` yield `io.EOF`; `onWrite` appends `p` to the buffer,
whose contents meanwhile are `bufAtWake`). -/
def streamWrite (s : Stream) (now : ℕ) (p : List ℕ) (wake : WriteWake) (bufAtWake : List ℕ) :
    ℕ × GoErr × List ℕ :=
  if s.WState = .StreamClosed ∨ s.WState = .StreamClosing then (0, .eof, s.writeBuf)
  else if s.writeDeadline ≠ 0 ∧ s.writeDeadline < now then (0, .deadlineExceeded, s.writeBuf)
  else if s.max_writebuf_size ≤ s.writeBuf.length then
    match wake with
    | .timeout => (0, .eof, s.writeBuf)
    | .halted => (0, .eof, s.writeBuf)
    | .onStreamClose => (0, .eof, s.writeBuf)
    | .onWrite => (p.length, .noErr, bufAtWake ++ p)
  else (p.length, .noErr, s.writeBuf ++ p)

/-! ## Invariants and concrete executions -/

/-- No final frame occurs in the list. -/
def NoEnd (l : List Frame) : Prop := ∀ f ∈ l, f.ftype ≠ .StreamEnd

/-- Invariant tying `StreamEnd` frames to the closed write half: before
the write half closes no final frame has been published or scheduled
for retransmission; all published or scheduled final frames are equal;
once the write half is closed a final frame has been published. -/
def InvEnd (s : Stream) : Prop :=
  (s.WState ≠ .StreamClosed → NoEnd s.put ∧ NoEnd s.tq) ∧
  (∀ f, f ∈ s.put ++ s.tq → f.ftype = .StreamEnd →
    ∀ g, g ∈ s.put ++ s.tq → g.ftype = .StreamEnd → f = g) ∧
  (s.WState = .StreamClosed → ∃ f, f ∈ s.put ∧ f.ftype = .StreamEnd)

/-- Invariant for the acknowledgement cursor: it never exceeds the read
index, and every frame awaiting retransmission carries an ack that was
a past value of the read index. -/
def InvAck (s : Stream) : Prop :=
  s.f_ack_idx ≤ s.f_read_idx ∧ ∀ f ∈ s.tq, f.Ack ≤ s.f_read_idx

/-- An execution of one endpoint: three one-byte writes are drained
into frames 0, 1 and 2 (filling the outstanding set to the window size
3), the writer then blocks, a fourth write signals `onFlush`, and the
woken writer publishes frame 3 without rechecking the window. -/
def windowTrace : List Label :=
  [.writeCall [1], .writerStep, .writeCall [2], .writerStep, .writeCall [3], .writerStep,
    .writerStep, .writeCall [4], .writerWake]

/-- The frame published by the writer for the one-byte write `[1]`
on a fresh stream. -/
def retxFrame : Frame := ⟨.StreamStart, 0, 0, [1]⟩

/-- A stream that is closing its write half with an empty outbound
buffer: the writer's next iteration is a teardown. -/
def closingStream : Stream := { newStream 2 with WState := .StreamClosing }

/-- The state `closingStream` steps to when the writer tears down. -/
def closedStream : Stream :=
  { closingStream with
    WState := .StreamClosed,
    put := [⟨.StreamEnd, 0, 0, []⟩],
    f_write_idx := 1,
    wack := [0],
    tq := [⟨.StreamEnd, 0, 0, []⟩] }

/-- The final frame of a teardown on a fresh stream. -/
def endFrame : Frame := ⟨.StreamEnd, 0, 0, []⟩

/-- A fresh stream right after `Close` was called. -/
def closingAfterClose : Stream :=
  { newStream 2 with RState := .StreamClosed, WState := .StreamClosing }

/-- The state after `Close` and the writer's teardown iteration. -/
def closedAfterTrace : Stream :=
  { newStream 2 with
    RState := .StreamClosed,
    WState := .StreamClosed,
    put := [endFrame],
    f_write_idx := 1,
    wack := [0],
    tq := [endFrame] }

/-- A stream one successful one-byte `Write` after construction. -/
def pendingStream : Stream := { newStream 7 with writeBuf := [1] }

/-- The state `pendingStream` steps to when the writer publishes. -/
def publishedStream : Stream :=
  { pendingStream with
    writeBuf := [],
    put := [retxFrame],
    f_write_idx := 1,
    wack := [0],
    tq := [retxFrame] }

/-! ## Structural lemmas -/

theorem txFrame_put (s : Stream) (f : Frame) : (txFrame s f).put = s.put ++ [f] := by
  unfold txFrame
  split <;> split <;> rfl

theorem txFrame_WState (s : Stream) (f : Frame) : (txFrame s f).WState = s.WState := by
  unfold txFrame
  split <;> split <;> rfl

theorem txFrame_read_idx (s : Stream) (f : Frame) :
    (txFrame s f).f_read_idx = s.f_read_idx := by
  unfold txFrame
  split <;> split <;> rfl

theorem txFrame_write_idx (s : Stream) (f : Frame) :
    (txFrame s f).f_write_idx = s.f_write_idx + 1 := by
  unfold txFrame
  split <;> split <;> rfl

theorem txFrame_ack_idx (s : Stream) (f : Frame) :
    (txFrame s f).f_ack_idx = if s.f_ack_idx < f.Ack then f.Ack else s.f_ack_idx := by
  unfold txFrame
  split <;> split <;> rfl

theorem txFrame_tq (s : Stream) (f : Frame) :
    (txFrame s f).tq = if s.Mode = .ReliableStream then s.tq ++ [f] else s.tq := by
  unfold txFrame
  split <;> split <;> rfl

theorem txFrame_wack (s : Stream) (f : Frame) :
    (txFrame s f).wack = if s.Mode = .ReliableStream then s.wack.insert f.id else s.wack := by
  unfold txFrame
  split <;> split <;> rfl

theorem txFrame_tq_mem (s : Stream) (f g : Frame) (h : g ∈ (txFrame s f).tq) :
    g ∈ s.tq ∨ g = f := by
  rw [txFrame_tq] at h
  split at h
  · simp only [List.mem_append, List.mem_singleton] at h
    exact h
  · exact Or.inl h

theorem txFrame_put_mem (s : Stream) (f g : Frame) (h : g ∈ (txFrame s f).put) :
    g ∈ s.put ∨ g = f := by
  rw [txFrame_put] at h
  simpa using h

theorem txFrame_mem_put_of_mem (s : Stream) (f g : Frame) (h : g ∈ s.put) :
    g ∈ (txFrame s f).put := by
  rw [txFrame_put]
  exact List.mem_append_left _ h

theorem txFrame_self_mem_put (s : Stream) (f : Frame) : f ∈ (txFrame s f).put := by
  rw [txFrame_put]
  simp

theorem drained_read_idx (s : Stream) (mT : Bool) : (drained s mT).f_read_idx = s.f_read_idx :=
  rfl

theorem drained_write_idx (s : Stream) (mT : Bool) :
    (drained s mT).f_write_idx = s.f_write_idx :=
  rfl

theorem drained_ack_idx (s : Stream) (mT : Bool) : (drained s mT).f_ack_idx = s.f_ack_idx :=
  rfl

theorem drained_put (s : Stream) (mT : Bool) : (drained s mT).put = s.put :=
  rfl

theorem drained_Mode (s : Stream) (mT : Bool) : (drained s mT).Mode = s.Mode :=
  rfl

theorem drained_wack (s : Stream) (mT : Bool) : (drained s mT).wack = s.wack :=
  rfl

theorem drained_tq (s : Stream) (mT : Bool) : (drained s mT).tq = s.tq :=
  rfl

theorem assemblePublish_read_idx (s : Stream) (mA mT : Bool) :
    (assemblePublish s mA mT).f_read_idx = s.f_read_idx := by
  unfold assemblePublish
  split
  · rw [txFrame_read_idx, drained_read_idx]
  · rfl

theorem assemblePublish_write_idx_le (s : Stream) (mA mT : Bool) :
    s.f_write_idx ≤ (assemblePublish s mA mT).f_write_idx := by
  unfold assemblePublish
  split
  · rw [txFrame_write_idx, drained_write_idx]
    exact Nat.le_succ _
  · exact Nat.le_refl _

theorem readerIter_put (s : Stream) (f : Frame) : (readerIter s f).put = s.put := by
  unfold readerIter
  split <;> rfl

theorem readerIter_tq (s : Stream) (f : Frame) : (readerIter s f).tq = s.tq := by
  unfold readerIter
  split <;> rfl

theorem readerIter_WState (s : Stream) (f : Frame) : (readerIter s f).WState = s.WState := by
  unfold readerIter
  split <;> rfl

theorem readerIter_write_idx (s : Stream) (f : Frame) :
    (readerIter s f).f_write_idx = s.f_write_idx := by
  unfold readerIter
  split <;> rfl

theorem readerIter_ack_idx (s : Stream) (f : Frame) :
    (readerIter s f).f_ack_idx = s.f_ack_idx := by
  unfold readerIter
  split <;> rfl

theorem readerIter_read_idx_le (s : Stream) (f : Frame) :
    s.f_read_idx ≤ (readerIter s f).f_read_idx := by
  unfold readerIter
  split
  · exact Nat.le_refl _
  · exact Nat.le_succ _

/-- `InvEnd` depends only on `put`, `tq` and `WState`. -/
theorem invEnd_congr (s t : Stream) (h1 : t.put = s.put) (h2 : t.tq = s.tq)
    (h3 : t.WState = s.WState) (h : InvEnd s) : InvEnd t := by
  unfold InvEnd
  rw [h1, h2, h3]
  exact h

/-- `InvAck` depends only on `f_ack_idx`, `f_read_idx` and `tq`. -/
theorem invAck_congr (s t : Stream) (h1 : t.f_ack_idx = s.f_ack_idx)
    (h2 : t.f_read_idx = s.f_read_idx) (h3 : t.tq = s.tq) (h : InvAck s) : InvAck t := by
  unfold InvAck
  rw [h1, h2, h3]
  exact h

/-! ## Preservation of `InvAck` -/

theorem invAck_txFrame (s : Stream) (f : Frame) (h : InvAck s) (hf : f.Ack ≤ s.f_read_idx) :
    InvAck (txFrame s f) := by
  refine ⟨?_, ?_⟩
  · rw [txFrame_ack_idx, txFrame_read_idx]
    split
    · exact hf
    · exact h.1
  · intro g hg
    rw [txFrame_read_idx]
    rcases txFrame_tq_mem s f g hg with hg2 | rfl
    · exact h.2 g hg2
    · exact hf

theorem invAck_drained (s : Stream) (mT : Bool) (h : InvAck s) : InvAck (drained s mT) :=
  invAck_congr s _ rfl rfl rfl h

theorem invAck_assemblePublish (s : Stream) (mA mT : Bool) (h : InvAck s) :
    InvAck (assemblePublish s mA mT) := by
  unfold assemblePublish
  split
  · exact invAck_txFrame _ _ (invAck_drained s mT h) (Nat.le_refl _)
  · exact invAck_drained s mT h

theorem invAck_step (s : Stream) (l : Label) (s2 : Stream)
    (hInv : InvAck s) (h : streamStep s l = some s2) : InvAck s2 := by
  cases l with
  | writerStep =>
    simp only [streamStep] at h
    unfold writerIter at h
    split at h
    · exact Option.noConfusion h
    · split at h
      · exact Option.noConfusion h
      · split at h
        · injection h with h
          subst h
          exact invAck_congr s _ rfl rfl rfl hInv
        · injection h with h
          subst h
          exact invAck_assemblePublish _ _ _ hInv
  | writerWake =>
    simp only [streamStep] at h
    unfold writerResume at h
    split at h
    · injection h with h
      subst h
      exact invAck_assemblePublish _ _ _ (invAck_congr s _ rfl rfl rfl hInv)
    · exact Option.noConfusion h
  | readerStep f =>
    simp only [streamStep] at h
    injection h with h
    subst h
    refine ⟨?_, ?_⟩
    · calc (readerIter s f).f_ack_idx = s.f_ack_idx := readerIter_ack_idx s f
        _ ≤ s.f_read_idx := hInv.1
        _ ≤ (readerIter s f).f_read_idx := readerIter_read_idx_le s f
    · intro g hg
      rw [readerIter_tq] at hg
      exact Nat.le_trans (hInv.2 g hg) (readerIter_read_idx_le s f)
  | retxStep f =>
    simp only [streamStep] at h
    unfold retxPush at h
    split at h
    · next hmem =>
      injection h with h
      subst h
      have herase : InvAck { s with tq := s.tq.erase f } := by
        refine ⟨hInv.1, ?_⟩
        intro g hg
        exact hInv.2 g (List.mem_of_mem_erase hg)
      split
      · exact invAck_txFrame _ _ herase (hInv.2 f hmem)
      · exact herase
    · exact Option.noConfusion h
  | writeCall p =>
    simp only [streamStep] at h
    unfold writeCallStep at h
    split at h
    · injection h with h
      subst h
      exact invAck_congr s _ rfl rfl rfl hInv
    · exact Option.noConfusion h
  | readCall k =>
    simp only [streamStep] at h
    injection h with h
    subst h
    exact invAck_congr s _ rfl rfl rfl hInv
  | closeStep =>
    simp only [streamStep] at h
    injection h with h
    subst h
    unfold closeCall
    split
    · exact invAck_congr s _ rfl rfl rfl hInv
    · exact invAck_congr s _ rfl rfl rfl hInv
  | setReadDeadline t =>
    simp only [streamStep] at h
    injection h with h
    subst h
    exact invAck_congr s _ rfl rfl rfl hInv
  | setWriteDeadline t =>
    simp only [streamStep] at h
    injection h with h
    subst h
    exact invAck_congr s _ rfl rfl rfl hInv

theorem reachable_invAck (fps : ℕ) (s : Stream) (h : Reachable fps s) : InvAck s := by
  induction h with
  | base => exact ⟨Nat.le_refl _, by intro f hf; cases hf⟩
  | next s l s2 _ hstep ih => exact invAck_step s l s2 ih hstep

/-! ## Monotonicity of the frame counters -/

theorem streamStep_mono (s : Stream) (l : Label) (s2 : Stream)
    (h : streamStep s l = some s2) :
    s.f_write_idx ≤ s2.f_write_idx ∧ s.f_read_idx ≤ s2.f_read_idx := by
  cases l with
  | writerStep =>
    simp only [streamStep] at h
    unfold writerIter at h
    split at h
    · exact Option.noConfusion h
    · split at h
      · exact Option.noConfusion h
      · split at h
        · injection h with h
          subst h
          exact ⟨Nat.le_refl _, Nat.le_refl _⟩
        · injection h with h
          subst h
          exact ⟨assemblePublish_write_idx_le _ _ _,
            Nat.le_of_eq (assemblePublish_read_idx _ _ _).symm⟩
  | writerWake =>
    simp only [streamStep] at h
    unfold writerResume at h
    split at h
    · injection h with h
      subst h
      exact ⟨assemblePublish_write_idx_le { s with writerWaiting := false } false false,
        Nat.le_of_eq (assemblePublish_read_idx { s with writerWaiting := false } false false).symm⟩
    · exact Option.noConfusion h
  | readerStep f =>
    simp only [streamStep] at h
    injection h with h
    subst h
    exact ⟨Nat.le_of_eq (readerIter_write_idx s f).symm, readerIter_read_idx_le s f⟩
  | retxStep f =>
    simp only [streamStep] at h
    unfold retxPush at h
    split at h
    · injection h with h
      subst h
      split
      · refine ⟨?_, Nat.le_of_eq (txFrame_read_idx { s with tq := s.tq.erase f } f).symm⟩
        rw [txFrame_write_idx]
        exact Nat.le_succ _
      · exact ⟨Nat.le_refl _, Nat.le_refl _⟩
    · exact Option.noConfusion h
  | writeCall p =>
    simp only [streamStep] at h
    unfold writeCallStep at h
    split at h
    · injection h with h
      subst h
      exact ⟨Nat.le_refl _, Nat.le_refl _⟩
    · exact Option.noConfusion h
  | readCall k =>
    simp only [streamStep] at h
    injection h with h
    subst h
    exact ⟨Nat.le_refl _, Nat.le_refl _⟩
  | closeStep =>
    simp only [streamStep] at h
    injection h with h
    subst h
    unfold closeCall
    split
    · exact ⟨Nat.le_refl _, Nat.le_refl _⟩
    · exact ⟨Nat.le_refl _, Nat.le_refl _⟩
  | setReadDeadline t =>
    simp only [streamStep] at h
    injection h with h
    subst h
    exact ⟨Nat.le_refl _, Nat.le_refl _⟩
  | setWriteDeadline t =>
    simp only [streamStep] at h
    injection h with h
    subst h
    exact ⟨Nat.le_refl _, Nat.le_refl _⟩

/-! ## Preservation of `InvEnd` -/

theorem txFrame_mem_split (s : Stream) (f g : Frame)
    (h : g ∈ (txFrame s f).put ++ (txFrame s f).tq) : g ∈ s.put ++ s.tq ∨ g = f := by
  rcases List.mem_append.mp h with h4 | h4
  · rcases txFrame_put_mem s f g h4 with h5 | h5
    · exact Or.inl (List.mem_append_left _ h5)
    · exact Or.inr h5
  · rcases txFrame_tq_mem s f g h4 with h5 | h5
    · exact Or.inl (List.mem_append_right _ h5)
    · exact Or.inr h5

theorem invEnd_txFrame_notEnd (s : Stream) (f : Frame) (h : InvEnd s)
    (hf : f.ftype ≠ .StreamEnd) : InvEnd (txFrame s f) := by
  obtain ⟨h1, h2, h3⟩ := h
  refine ⟨?_, ?_, ?_⟩
  · rw [txFrame_WState]
    intro hW
    obtain ⟨hp, ht⟩ := h1 hW
    constructor
    · intro g hg
      rcases txFrame_put_mem s f g hg with hg2 | rfl
      · exact hp g hg2
      · exact hf
    · intro g hg
      rcases txFrame_tq_mem s f g hg with hg2 | rfl
      · exact ht g hg2
      · exact hf
  · intro a ha haE b hb hbE
    have ha2 : a ∈ s.put ++ s.tq := by
      rcases txFrame_mem_split s f a ha with h4 | rfl
      · exact h4
      · exact absurd haE hf
    have hb2 : b ∈ s.put ++ s.tq := by
      rcases txFrame_mem_split s f b hb with h4 | rfl
      · exact h4
      · exact absurd hbE hf
    exact h2 a ha2 haE b hb2 hbE
  · rw [txFrame_WState]
    intro hW
    obtain ⟨g, hg, hgE⟩ := h3 hW
    exact ⟨g, txFrame_mem_put_of_mem s f g hg, hgE⟩

theorem invEnd_tq_erase (s : Stream) (f : Frame) (h : InvEnd s) :
    InvEnd { s with tq := s.tq.erase f } := by
  obtain ⟨h1, h2, h3⟩ := h
  have sub : ∀ g : Frame, g ∈ s.put ++ s.tq.erase f → g ∈ s.put ++ s.tq := by
    intro g hg
    rcases List.mem_append.mp hg with h4 | h4
    · exact List.mem_append_left _ h4
    · exact List.mem_append_right _ (List.mem_of_mem_erase h4)
  refine ⟨?_, ?_, ?_⟩
  · intro hW
    obtain ⟨hp, ht⟩ := h1 hW
    exact ⟨hp, fun g hg => ht g (List.mem_of_mem_erase hg)⟩
  · intro a ha haE b hb hbE
    exact h2 a (sub a ha) haE b (sub b hb) hbE
  · exact h3

theorem invEnd_retx (s : Stream) (f : Frame) (h : InvEnd s) (hf : f ∈ s.tq) :
    InvEnd (txFrame { s with tq := s.tq.erase f } f) := by
  obtain ⟨h1, h2, h3⟩ := h
  have hmem : ∀ g : Frame,
      g ∈ (txFrame { s with tq := s.tq.erase f } f).put ++
        (txFrame { s with tq := s.tq.erase f } f).tq → g ∈ s.put ++ s.tq := by
    intro g hg
    rcases txFrame_mem_split _ f g hg with hg2 | rfl
    · rcases List.mem_append.mp hg2 with h4 | h4
      · exact List.mem_append_left _ h4
      · exact List.mem_append_right _ (List.mem_of_mem_erase h4)
    · exact List.mem_append_right _ hf
  refine ⟨?_, ?_, ?_⟩
  · rw [txFrame_WState]
    intro hW
    obtain ⟨hp, ht⟩ := h1 hW
    constructor
    · intro g hg
      have := hmem g (List.mem_append_left _ hg)
      rcases List.mem_append.mp this with h4 | h4
      · exact hp g h4
      · exact ht g h4
    · intro g hg
      have := hmem g (List.mem_append_right _ hg)
      rcases List.mem_append.mp this with h4 | h4
      · exact hp g h4
      · exact ht g h4
  · intro a ha haE b hb hbE
    exact h2 a (hmem a ha) haE b (hmem b hb) hbE
  · rw [txFrame_WState]
    intro hW
    obtain ⟨g, hg, hgE⟩ := h3 hW
    exact ⟨g, txFrame_mem_put_of_mem _ f g hg, hgE⟩

theorem invEnd_assemblePublish_true (s : Stream) (mA : Bool) (h : InvEnd s)
    (hW : s.WState ≠ .StreamClosed) : InvEnd (assemblePublish s mA true) := by
  obtain ⟨h1, h2, h3⟩ := h
  obtain ⟨hp, ht⟩ := h1 hW
  unfold assemblePublish
  rw [if_pos (by simp)]
  refine ⟨?_, ?_, ?_⟩
  · rw [txFrame_WState]
    intro hW2
    exact absurd rfl hW2
  · have key : ∀ g : Frame,
        g ∈ (txFrame (drained s true) (builtFrame s true)).put ++
          (txFrame (drained s true) (builtFrame s true)).tq →
        g.ftype = .StreamEnd → g = builtFrame s true := by
      intro g hg hgE
      rcases txFrame_mem_split _ _ g hg with hg2 | rfl
      · rcases List.mem_append.mp hg2 with h4 | h4
        · exact absurd hgE (hp g h4)
        · exact absurd hgE (ht g h4)
      · rfl
    intro a ha haE b hb hbE
    rw [key a ha haE, key b hb hbE]
  · intro _
    exact ⟨builtFrame s true, txFrame_self_mem_put _ _, rfl⟩

theorem invEnd_assemblePublish_false (s : Stream) (mA : Bool) (h : InvEnd s) :
    InvEnd (assemblePublish s mA false) := by
  unfold assemblePublish
  split
  · exact invEnd_txFrame_notEnd (drained s false) (builtFrame s false)
      (invEnd_congr s _ rfl rfl rfl h) (fun hcon => FrameType.noConfusion hcon)
  · exact invEnd_congr s _ rfl rfl rfl h

theorem invEnd_close (s : Stream) (h : InvEnd s) : InvEnd (closeCall s) := by
  obtain ⟨h1, h2, h3⟩ := h
  unfold closeCall
  split
  · next hOpen =>
    refine ⟨?_, h2, ?_⟩
    · intro _
      exact h1 (by rw [hOpen]; exact fun hcon => StreamState.noConfusion hcon)
    · exact fun hcon => absurd hcon (fun hc => StreamState.noConfusion hc)
  · exact ⟨h1, h2, h3⟩

theorem invEnd_step (s : Stream) (l : Label) (s2 : Stream)
    (hInv : InvEnd s) (h : streamStep s l = some s2) : InvEnd s2 := by
  cases l with
  | writerStep =>
    simp only [streamStep] at h
    unfold writerIter at h
    split at h
    · exact Option.noConfusion h
    · split at h
      · exact Option.noConfusion h
      · next hW =>
        split at h
        · injection h with h
          subst h
          exact invEnd_congr s _ rfl rfl rfl hInv
        · injection h with h
          subst h
          cases hmT : mustTeardownOf s with
          | false => exact invEnd_assemblePublish_false _ _ hInv
          | true => exact invEnd_assemblePublish_true _ _ hInv hW
  | writerWake =>
    simp only [streamStep] at h
    unfold writerResume at h
    split at h
    · injection h with h
      subst h
      exact invEnd_assemblePublish_false _ _ (invEnd_congr s _ rfl rfl rfl hInv)
    · exact Option.noConfusion h
  | readerStep f =>
    simp only [streamStep] at h
    injection h with h
    subst h
    exact invEnd_congr s _ (readerIter_put s f) (readerIter_tq s f) (readerIter_WState s f) hInv
  | retxStep f =>
    simp only [streamStep] at h
    unfold retxPush at h
    split at h
    · next hmem =>
      injection h with h
      subst h
      split
      · exact invEnd_retx s f hInv hmem
      · exact invEnd_tq_erase s f hInv
    · exact Option.noConfusion h
  | writeCall p =>
    simp only [streamStep] at h
    unfold writeCallStep at h
    split at h
    · injection h with h
      subst h
      exact invEnd_congr s _ rfl rfl rfl hInv
    · exact Option.noConfusion h
  | readCall k =>
    simp only [streamStep] at h
    injection h with h
    subst h
    exact invEnd_congr s _ rfl rfl rfl hInv
  | closeStep =>
    simp only [streamStep] at h
    injection h with h
    subst h
    exact invEnd_close s hInv
  | setReadDeadline t =>
    simp only [streamStep] at h
    injection h with h
    subst h
    exact invEnd_congr s _ rfl rfl rfl hInv
  | setWriteDeadline t =>
    simp only [streamStep] at h
    injection h with h
    subst h
    exact invEnd_congr s _ rfl rfl rfl hInv

theorem reachable_invEnd (fps : ℕ) (s : Stream) (h : Reachable fps s) : InvEnd s := by
  induction h with
  | base =>
    refine ⟨fun _ => ⟨?_, ?_⟩, ?_, ?_⟩
    · intro f hf
      cases hf
    · intro f hf
      cases hf
    · intro a ha _ b _ _
      cases ha
    · intro hcon
      exact absurd hcon (fun hc => StreamState.noConfusion hc)
  | next s l s2 _ hstep ih => exact invEnd_step s l s2 ih hstep

/-! ## Characterization of the acknowledgement loop -/

theorem processAckLoop_fst (ack : ℕ) (w : List ℕ) :
    (processAckLoop ack w).1 = w.filter (fun i => decide (ack < i)) := by
  induction w with
  | nil => rfl
  | cons i w ih =>
    simp only [processAckLoop, List.filter_cons]
    by_cases h : i ≤ ack
    · have h2 : ¬ack < i := Nat.not_lt.mpr h
      simp [h, h2, ih]
    · have h2 : ack < i := Nat.lt_of_not_le h
      simp [h, h2, ih]

theorem processAckLoop_snd (ack : ℕ) (w : List ℕ) :
    (processAckLoop ack w).2 = w.any (fun i => decide (i ≤ ack)) := by
  induction w with
  | nil => rfl
  | cons i w ih =>
    simp only [processAckLoop, List.any_cons]
    by_cases h : i ≤ ack
    · simp [h]
    · simp [h, ih]

/-! ## Claim theorems -/

set_option maxRecDepth 10000 in
/-- C1: the claim states that every byte sequence passed to the
substrate `Put` has length exactly the substrate payload size.  The
code computes `FramePayloadSize` by subtracting the nonce size, the
CBOR overhead of the empty frame (21 bytes) and the AEAD overhead, but
then pads the serialized frame only up to `FramePayloadSize` (not
`FramePayloadSize + CodecOverhead`), and the CBOR integer and length
heads are variable-width.  At substrate payload size 1000, an
empty-payload frame yields a 979-byte `Put` value and a full-payload
frame with a large `Ack` yields 1010 bytes; neither equals 1000. -/
theorem claim_put_length_not_substrate_size :
    cborFrameOverhead = 21 ∧
    txPutLen 1000 ⟨.StreamData, 0, 0, []⟩ = 979 ∧
    txPutLen 1000 ⟨.StreamData, 0, 2 ^ 32, List.replicate 939 0⟩ = 1010 ∧
    (979 : ℤ) ≠ 1000 ∧ (1010 : ℤ) ≠ 1000 := by
  decide

set_option maxRecDepth 10000 in
/-- C2: the claim states that a `Read` or `Write` whose deadline
elapses returns the deadline-exceeded error even when the deadline
elapses while the call is blocked.  In the code the blocked `select`
returns `io.EOF` from the `time.After` branch: a `Read` on an empty
buffer with deadline 10, entered at time 3, whose timer fires, returns
`(0, io.EOF)`, and similarly for a blocked `Write` on a full buffer —
not `os.ErrDeadlineExceeded`. -/
theorem claim_blocked_deadline_yields_eof :
    streamRead { newStream 5 with readDeadline := 10 } 3 1 .timeout [] = (0, .eof, []) ∧
    streamWrite { newStream 5 with writeDeadline := 10, writeBuf := List.replicate 210 0 } 3
        [7] .timeout [] = (0, .eof, List.replicate 210 0) ∧
    GoErr.eof ≠ GoErr.deadlineExceeded := by
  decide

/-- C4: the claim states that the retransmission callback mutates no
stream counter.  On a fresh stream that published exactly frame 0
(`f_write_idx = 1`) with frame 0 still outstanding, the fired
retransmission entry re-publishes the same frame (the publish log
becomes `[retxFrame, retxFrame]`, outstanding membership is unchanged)
but `txFrame` also increments `f_write_idx` to 2 — a counter mutation
by the timer-queue callback. -/
theorem claim_retx_mutates_write_idx :
    (run (newStream 7) [.writeCall [1], .writerStep]).map (fun s => s.f_write_idx) = some 1 ∧
    (run (newStream 7) [.writeCall [1], .writerStep, .retxStep retxFrame]).map
        (fun s => (s.f_write_idx, s.wack, s.put)) = some (2, [0], [retxFrame, retxFrame]) := by
  decide

/-- C3 counterexample: the claim states that the outstanding set never
exceeds the window size `W = 3`.  In the execution `windowTrace` the
writer fills the window with frames 0, 1, 2, blocks, is woken by a
fourth `Write` via `onFlush`, and publishes frame 3 without rechecking
the window: the reachable state has 4 outstanding frames in a reliable
stream with window 3. -/
theorem claim_window_bound_cex :
    (run (newStream 7) windowTrace).map
        (fun s => (s.Mode, s.stream_window_size, s.wack.length)) =
      some (.ReliableStream, 3, 4) := by
  decide

/-- C3 amended: a writer iteration that publishes without having
blocked, with no ack obligation, no teardown obligation and a write
half that is not closing, requires the outstanding set to be below the
window beforehand and leaves it at most the window size afterwards;
after a wake-up from a blocked wait, or under an obligation, or while
closing, the writer publishes regardless of the window. -/
theorem claim_window_bound_amended (s s2 : Stream)
    (h : streamStep s .writerStep = some s2) (hm : s.Mode = .ReliableStream)
    (hA : mustAckOf s = false) (hT : mustTeardownOf s = false)
    (hC : s.WState ≠ .StreamClosing) (hp : s.put.length < s2.put.length) :
    s.wack.length < s.stream_window_size ∧ s2.wack.length ≤ s.stream_window_size := by
  simp only [streamStep] at h
  unfold writerIter at h
  split at h
  · exact Option.noConfusion h
  · split at h
    · exact Option.noConfusion h
    · split at h
      · injection h with h
        subst h
        exact absurd hp (Nat.lt_irrefl _)
      · next hcond =>
        injection h with h
        subst h
        have hwait : mustWaitOf s = false := by
          cases hw : mustWaitOf s
          · rfl
          · exact absurd (by simp [hm, hA, hT, hw]) hcond
        have hlen : s.wack.length < s.stream_window_size := by
          unfold mustWaitOf at hwait
          simp [hC] at hwait
          exact hwait.1
        refine ⟨hlen, ?_⟩
        rw [hA, hT]
        unfold assemblePublish
        split
        · rw [txFrame_wack, drained_Mode, drained_wack, if_pos hm]
          by_cases hmem : (builtFrame s false).id ∈ s.wack
          · rw [List.insert_of_mem hmem]
            exact Nat.le_of_lt hlen
          · rw [List.insert_of_not_mem hmem]
            exact hlen
        · exact Nat.le_of_lt hlen

/-- C3 amended, witness: a fresh stream with one buffered byte
publishes one frame; its outstanding set goes from 0 to 1 ≤ 3. -/
theorem claim_window_bound_amended_witness :
    pendingStream.wack.length < pendingStream.stream_window_size ∧
      publishedStream.wack.length ≤ pendingStream.stream_window_size :=
  claim_window_bound_amended pendingStream publishedStream (by decide) rfl (by decide)
    (by decide) (by decide) (by decide)

/-- C7: the send identifier and key are `H(base ‖ be64(n))` of the
handshake-derived bases exactly as the specification formulas state,
the receive side is symmetric, and two endpoints whose handshake
secrets are exchanged derive identical identifiers and keys for a
direction; `be64` is the 8-byte big-endian encoding of the 64-bit
frame number. -/
theorem claim_key_schedule (H : List ℕ → List ℕ) (hkdfStream : List ℕ → List ℕ → ℕ → ℕ)
    (sA sB : List ℕ) (n : ℕ) :
    txFrameID H (exchange hkdfStream sA sB).write_id_base n
        = spec_id_tx H (exchange hkdfStream sA sB).write_id_base n ∧
    txFrameKey H (exchange hkdfStream sA sB).writekey n
        = spec_k_tx H (exchange hkdfStream sA sB).writekey n ∧
    rxFrameID H (exchange hkdfStream sB sA).read_id_base n
        = txFrameID H (exchange hkdfStream sA sB).write_id_base n ∧
    rxFrameKey H (exchange hkdfStream sB sA).readkey n
        = txFrameKey H (exchange hkdfStream sA sB).writekey n ∧
    (be64 n).length = 8 ∧
    beVal (be64 n) = n % 2 ^ 64 := by
  refine ⟨rfl, rfl, rfl, rfl, rfl, ?_⟩
  unfold beVal be64
  simp only [List.foldl_cons, List.foldl_nil]
  omega

/-- C8: processing a received frame deletes from the outstanding set
exactly the indices at most the frame's `Ack` (greater indices are
retained), the `ackD` flag is set iff something was deleted, and the
reader worker installs exactly the pruned set. -/
theorem claim_processAck_exact (ack : ℕ) (w : List ℕ) :
    (∀ i, i ∈ (processAckLoop ack w).1 ↔ i ∈ w ∧ ack < i) ∧
    ((processAckLoop ack w).2 = true ↔ ∃ i ∈ w, i ≤ ack) ∧
    (∀ s f, (readerIter s f).wack = (processAckLoop f.Ack s.wack).1) := by
  refine ⟨?_, ?_, ?_⟩
  · intro i
    rw [processAckLoop_fst]
    simp
  · rw [processAckLoop_snd]
    simp
  · intro s f
    unfold readerIter
    split <;> rfl

/-- C5: in reliable mode, a writer iteration that runs while a half is
closing and the outbound buffer is empty publishes a final `StreamEnd`
frame and closes the write half in the same step; in every reachable
state any two published `StreamEnd` frames are equal (the final frame
is unique up to retransmission of the same frame); and whenever the
write half is closed a `StreamEnd` frame has been published. -/
theorem claim_teardown_end_frame :
    (∀ s s2 : Stream, s.Mode = .ReliableStream →
      (s.RState = .StreamClosed ∨ s.WState = .StreamClosing) → s.writeBuf = [] →
      streamStep s .writerStep = some s2 →
      s2.WState = .StreamClosed ∧
        s2.put = s.put ++ [⟨.StreamEnd, s.f_write_idx, s.f_read_idx, []⟩]) ∧
    (∀ fps s, Reachable fps s → ∀ f, f ∈ s.put → f.ftype = .StreamEnd →
      ∀ g, g ∈ s.put → g.ftype = .StreamEnd → f = g) ∧
    (∀ fps s, Reachable fps s → s.WState = .StreamClosed →
      ∃ f, f ∈ s.put ∧ f.ftype = .StreamEnd) := by
  refine ⟨?_, ?_, ?_⟩
  · intro s s2 hm hc hb h
    have hmT : mustTeardownOf s = true := by
      unfold mustTeardownOf
      rcases hc with hc | hc <;> simp [hm, hc, hb]
    simp only [streamStep] at h
    unfold writerIter at h
    split at h
    · exact Option.noConfusion h
    · split at h
      · exact Option.noConfusion h
      · have hcond : (decide (s.Mode = .ReliableStream) && !mustAckOf s && !mustTeardownOf s
            && mustWaitOf s) = false := by
          rw [hmT]
          simp
        rw [hcond] at h
        rw [if_neg (fun hcon => Bool.noConfusion hcon)] at h
        injection h with h
        subst h
        rw [hmT]
        constructor
        · unfold assemblePublish
          rw [if_pos (by simp), txFrame_WState]
          rfl
        · unfold assemblePublish
          rw [if_pos (by simp), txFrame_put, drained_put]
          unfold builtFrame
          rw [hb]
          simp
  · intro fps s hr f hf hfE g hg hgE
    have hInv := reachable_invEnd fps s hr
    exact hInv.2.1 f (List.mem_append_left _ hf) hfE g (List.mem_append_left _ hg) hgE
  · intro fps s hr hW
    exact (reachable_invEnd fps s hr).2.2 hW

/-- C5 witness: on a fresh stream, `Close` then one writer iteration
tears down: the write half closes, the published final frame is the
unique `StreamEnd` frame, and the closed state indeed carries one. -/
theorem claim_teardown_end_frame_witness :
    (closedStream.WState = .StreamClosed ∧
      closedStream.put = closingStream.put ++
        [⟨.StreamEnd, closingStream.f_write_idx, closingStream.f_read_idx, []⟩]) ∧
    endFrame = endFrame ∧
    (∃ f, f ∈ closedAfterTrace.put ∧ f.ftype = .StreamEnd) := by
  have hreach : Reachable 2 closedAfterTrace :=
    Reachable.next closingAfterClose .writerStep closedAfterTrace
      (Reachable.next (newStream 2) .closeStep closingAfterClose Reachable.base (by decide))
      (by decide)
  refine ⟨?_, ?_, ?_⟩
  · exact claim_teardown_end_frame.1 closingStream closedStream rfl (Or.inr rfl) rfl (by decide)
  · exact claim_teardown_end_frame.2.1 2 closedAfterTrace hreach endFrame (by decide) rfl
      endFrame (by decide) rfl
  · exact claim_teardown_end_frame.2.2 2 closedAfterTrace hreach rfl

/-- C6: across every operation of the stream the counters
`f_write_idx` and `f_read_idx` never decrease, and in every reachable
state `f_ack_idx ≤ f_read_idx`. -/
theorem claim_counters_monotone :
    (∀ s l s2, streamStep s l = some s2 →
      s.f_write_idx ≤ s2.f_write_idx ∧ s.f_read_idx ≤ s2.f_read_idx) ∧
    (∀ fps s, Reachable fps s → s.f_ack_idx ≤ s.f_read_idx) :=
  ⟨streamStep_mono, fun fps s h => (reachable_invAck fps s h).1⟩

/-- C6 witness: the writer step publishing the first frame does not
decrease either counter, and a fresh stream satisfies the cursor
inequality. -/
theorem claim_counters_monotone_witness :
    (pendingStream.f_write_idx ≤ publishedStream.f_write_idx ∧
      pendingStream.f_read_idx ≤ publishedStream.f_read_idx) ∧
    (newStream 7).f_ack_idx ≤ (newStream 7).f_read_idx :=
  ⟨claim_counters_monotone.1 pendingStream .writerStep publishedStream (by decide),
    claim_counters_monotone.2 7 (newStream 7) Reachable.base⟩

/-- C9: a `Read` entered after a non-zero read deadline has passed
returns `(0, os.ErrDeadlineExceeded)` and consumes nothing, whatever
the inbound buffer holds: the deadline check precedes every other
check. -/
theorem claim_read_deadline_precedence (s : Stream) (now plen : ℕ) (wake : ReadWake)
    (bufAtWake : List ℕ) (h1 : s.readDeadline ≠ 0) (h2 : s.readDeadline < now) :
    streamRead s now plen wake bufAtWake = (0, .deadlineExceeded, s.readBuf) := by
  unfold streamRead
  rw [if_pos ⟨h1, h2⟩]

/-- C9 witness: a stream with two buffered bytes and an expired
deadline returns the deadline error and keeps both bytes. -/
theorem claim_read_deadline_precedence_witness :
    streamRead { newStream 5 with readDeadline := 2, readBuf := [9, 9] } 3 4 .onRead [] =
      (0, .deadlineExceeded, [9, 9]) :=
  claim_read_deadline_precedence { newStream 5 with readDeadline := 2, readBuf := [9, 9] }
    3 4 .onRead [] (by decide) (by decide)

/-- C10: `Write` never performs a short write with a nil error: every
call either appends all of `p` to the outbound buffer and returns
`(len p, nil)`, or appends nothing and returns `(0, io.EOF)` or
`(0, os.ErrDeadlineExceeded)` with the buffer unchanged; the success
case happens exactly when the write half is neither closed nor closing,
the deadline has not passed, and either the buffer is below the cap or
the blocked wait ended with `onWrite`. -/
theorem claim_write_all_or_nothing (s : Stream) (now : ℕ) (p : List ℕ) (wake : WriteWake)
    (bufAtWake : List ℕ) :
    (streamWrite s now p wake bufAtWake = (0, .eof, s.writeBuf) ∨
      streamWrite s now p wake bufAtWake = (0, .deadlineExceeded, s.writeBuf) ∨
      ∃ base, streamWrite s now p wake bufAtWake = (p.length, .noErr, base ++ p)) ∧
    ((∃ base, streamWrite s now p wake bufAtWake = (p.length, .noErr, base ++ p)) ↔
      ¬(s.WState = .StreamClosed ∨ s.WState = .StreamClosing) ∧
      ¬(s.writeDeadline ≠ 0 ∧ s.writeDeadline < now) ∧
      (s.writeBuf.length < s.max_writebuf_size ∨ wake = .onWrite)) := by
  constructor
  · unfold streamWrite
    split_ifs with h1 h2 h3
    · exact Or.inl rfl
    · exact Or.inr (Or.inl rfl)
    · cases wake
      · exact Or.inl rfl
      · exact Or.inl rfl
      · exact Or.inl rfl
      · exact Or.inr (Or.inr ⟨bufAtWake, rfl⟩)
    · exact Or.inr (Or.inr ⟨s.writeBuf, rfl⟩)
  · unfold streamWrite
    split_ifs with h1 h2 h3
    · constructor
      · rintro ⟨base, hb⟩
        exact absurd hb (by simp)
      · rintro ⟨hna, _, _⟩
        exact absurd h1 hna
    · constructor
      · rintro ⟨base, hb⟩
        exact absurd hb (by simp)
      · rintro ⟨_, hnd, _⟩
        exact absurd h2 hnd
    · cases wake with
      | timeout =>
        constructor
        · rintro ⟨base, hb⟩
          exact absurd hb (by simp)
        · rintro ⟨_, _, h4 | h4⟩
          · exact absurd h3 (Nat.not_le.mpr h4)
          · exact WriteWake.noConfusion h4
      | halted =>
        constructor
        · rintro ⟨base, hb⟩
          exact absurd hb (by simp)
        · rintro ⟨_, _, h4 | h4⟩
          · exact absurd h3 (Nat.not_le.mpr h4)
          · exact WriteWake.noConfusion h4
      | onStreamClose =>
        constructor
        · rintro ⟨base, hb⟩
          exact absurd hb (by simp)
        · rintro ⟨_, _, h4 | h4⟩
          · exact absurd h3 (Nat.not_le.mpr h4)
          · exact WriteWake.noConfusion h4
      | onWrite =>
        constructor
        · exact fun _ => ⟨h1, h2, Or.inr rfl⟩
        · exact fun _ => ⟨bufAtWake, rfl⟩
    · constructor
      · exact fun _ => ⟨h1, h2, Or.inl (Nat.lt_of_not_le h3)⟩
      · exact fun _ => ⟨s.writeBuf, rfl⟩

end KatzenStream
